import Mathlib

/-!
Verification of the AoE2 KillCoach v4 analytics core.

Shallow embedding of `src/aoe2killcoach4/core.py` and
`src/aoe2killcoach4/time_utils.py`.  Times are natural numbers of seconds
in the composition snapshotter (Python ints coming from timestamps) and
integers in the idle detector, whose arithmetic subtracts freely.  The
static lookup tables (`GOLD_LINES`, `TRASH_LINES`, `COUNTER_MAP`) live in
`data_mappings.py`; every property proved here holds for all possible
table contents, so the tables are ordinary parameters of the embedded
functions.
-/

namespace KillCoach

/-- A derived unit-production event (`_collect_unit_events`): time in
seconds, resolved unit line, and the raw object ids of the action. -/
structure UnitEvent where
  time : Nat
  line : String
  objectIds : List Nat
deriving DecidableEq, Repr

/-- A derived build event (`_collect_build_events`). -/
structure BuildEvent where
  time : Nat
  building : String
  objectIds : List Nat
deriving DecidableEq, Repr

/-- The resolved age click times handed to the snapshotter and the idle
detector: `age_times[age]["click_time"]`, `None` when unresolved. -/
structure AgeTimes where
  feudal : Option Nat
  castle : Option Nat
  imperial : Option Nat
deriving DecidableEq, Repr

/-- Stable sort of unit events by time, modelling Python
`sorted(events, key=lambda item: item["time"])`. -/
def sortEventsByTime (l : List UnitEvent) : List UnitEvent :=
  List.insertionSort (fun a b => a.time ≤ b.time) l

/-- Comparison by time is total. -/
instance : IsTotal UnitEvent (fun a b => a.time ≤ b.time) :=
  ⟨fun a b => Nat.le_total a.time b.time⟩

/-- Comparison by time is transitive. -/
instance : IsTrans UnitEvent (fun a b => a.time ≤ b.time) :=
  ⟨fun _ _ _ h1 h2 => le_trans h1 h2⟩

/-- `range(0, stop, step)` for positive `step`. -/
def pyRange3 (stop step : Nat) : List Nat :=
  (List.range ((stop + step - 1) / step)).map (· * step)

/-- The fixed-interval bucket seed of `snapshot_composition`:
`list(range(0, max(duration, 0) + interval, interval))`. -/
def bucketBase (duration interval : Nat) : List Nat :=
  pyRange3 (max duration 0 + interval) interval

/-- One iteration of the age-click insertion loop:
`if time_val is not None and time_val not in buckets: buckets.append(time_val)`. -/
def addBucket (acc : List Nat) : Option Nat → List Nat
  | some t => if t ∈ acc then acc else acc ++ [t]
  | none => acc

/-- `sorted(set(l))`: the strictly increasing enumeration of the distinct
elements of `l`. -/
def sortedDedup (l : List Nat) : List Nat :=
  List.insertionSort (· ≤ ·) l.dedup

/-- The full bucket-boundary list of `snapshot_composition`. -/
def snapshotBuckets (duration : Nat) (ages : AgeTimes) (interval : Nat) : List Nat :=
  sortedDedup
    (addBucket (addBucket (addBucket (bucketBase duration interval) ages.feudal)
      ages.castle) ages.imperial)

/-- `totals[line] = totals.get(line, 0) + 1` on an insertion-ordered
association list, exactly as a Python dict update behaves. -/
def bumpLine (totals : List (String × Nat)) (line : String) : List (String × Nat) :=
  match totals with
  | [] => [(line, 1)]
  | (k, v) :: rest =>
      if k = line then (k, v + 1) :: rest else (k, v) :: bumpLine rest line

/-- The running-cursor loop of `snapshot_composition`: consume the events
with `time ≤ bucket` from the front of the sorted event list, bumping the
cumulative totals; returns the new totals and the unconsumed suffix. -/
def consume (events : List UnitEvent) (totals : List (String × Nat)) (bucket : Nat) :
    List (String × Nat) × List UnitEvent :=
  match events with
  | [] => (totals, [])
  | e :: rest =>
      if e.time ≤ bucket then consume rest (bumpLine totals e.line) bucket
      else (totals, e :: rest)

/-- Sum of the counts of the lines satisfying a predicate. -/
def sumCounts (totals : List (String × Nat)) (p : String → Bool) : Nat :=
  ((totals.filter (fun kv => p kv.1)).map (fun kv => kv.2)).sum

/-- One emitted composition snapshot. -/
structure Snapshot where
  time : Nat
  totals_by_line : List (String × Nat)
  military_total : Nat
  villagers_total_proxy : Nat
  gold_units_total : Nat
  trash_units_total : Nat
  gold_pct : Option ℚ
  trash_pct : Option ℚ
deriving DecidableEq, Repr

/-- Build the snapshot record for one bucket from the cumulative totals,
including the derived aggregates and the null-guarded percentages. -/
def mkSnapshot (goldLines trashLines : List String) (totals : List (String × Nat))
    (bucket : Nat) : Snapshot :=
  let military := sumCounts totals
    (fun l => !(l == "villager" || l == "fishing_ship" || l == "trade"))
  let gold := sumCounts totals (fun l => goldLines.contains l)
  let trash := sumCounts totals (fun l => trashLines.contains l)
  { time := bucket
    totals_by_line := totals
    military_total := military
    villagers_total_proxy := (totals.lookup "villager").getD 0
    gold_units_total := gold
    trash_units_total := trash
    gold_pct := if military = 0 then none else some ((gold : ℚ) / (military : ℚ))
    trash_pct := if military = 0 then none else some ((trash : ℚ) / (military : ℚ)) }

/-- The bucket loop of `snapshot_composition`. -/
def snapshotsAux (goldLines trashLines : List String) :
    List Nat → List UnitEvent → List (String × Nat) → List Snapshot
  | [], _, _ => []
  | b :: bs, events, totals =>
      mkSnapshot goldLines trashLines (consume events totals b).1 b ::
        snapshotsAux goldLines trashLines bs (consume events totals b).2
          (consume events totals b).1

/-- `snapshot_composition(unit_events, duration, age_times, interval)`. -/
def snapshot_composition (unit_events : List UnitEvent) (duration : Nat)
    (age_times : AgeTimes) (interval : Nat) (goldLines trashLines : List String) :
    List Snapshot :=
  snapshotsAux goldLines trashLines (snapshotBuckets duration age_times interval)
    (sortEventsByTime unit_events) []

/-! ### Town-center idle detector (`_collect_tc_idle`)

The detector subtracts freely (`time - last_time - 25`), so its arithmetic
is embedded over `Int`; event timestamps, being naturals, are cast in. -/

/-- The idle accumulator: running total plus the per-age attribution dict
`{"Dark": 0, "Feudal": 0, "Castle": 0, "Imperial": 0}`. -/
structure IdleAcc where
  total : Int
  dark : Int
  feudal : Int
  castle : Int
  imperial : Int
deriving DecidableEq, Repr

/-- The all-zero accumulator the detector starts from. -/
def idleZero : IdleAcc := ⟨0, 0, 0, 0, 0⟩

/-- A `None` age boundary defaults to the given clip value (`0` for a
start bound, `duration` for an end bound) inside `add_idle`. -/
def optTime (o : Option Nat) (dflt : Int) : Int :=
  match o with
  | some n => (n : Int)
  | none => dflt

/-- Interval-overlap length used by `add_idle`:
`max(0, min(end, end_age) - max(start, start_age))`. -/
def ovl (sa ea s e : Int) : Int := max 0 (min e ea - max s sa)

/-- `add_idle(start, end)`: add the (clamped) gap to the total and the
overlap with each of the four age spans to the per-age dict. -/
def addIdle (ages : AgeTimes) (duration : Int) (st : IdleAcc) (s e : Int) : IdleAcc :=
  { total := st.total + max 0 (e - s)
    dark := st.dark + ovl 0 (optTime ages.feudal duration) s e
    feudal := st.feudal + ovl (optTime ages.feudal 0) (optTime ages.castle duration) s e
    castle := st.castle + ovl (optTime ages.castle 0) (optTime ages.imperial duration) s e
    imperial := st.imperial + ovl (optTime ages.imperial 0) duration s e }

/-- The per-timeline loop of `_collect_tc_idle`: walk the production
times carrying `last_time` (initially 0); a gap of more than `25 + 5`
seconds between productions triggers `add_idle(last_time + 25, time)`,
and after the loop a tail `add_idle(last_time + 25, duration)` fires when
`last_time` is truthy and `duration > last_time + 25`. -/
def idleTimes (ages : AgeTimes) (duration : Int) : Int → IdleAcc → List Int → IdleAcc
  | last, st, [] =>
      if last ≠ 0 ∧ last + 25 < duration then addIdle ages duration st (last + 25) duration
      else st
  | last, st, t :: rest =>
      idleTimes ages duration t
        (if 5 < t - last - 25 then addIdle ages duration st (last + 25) t else st) rest

/-- The distinct town-center object ids found on "Town Center" build
events (the Python set `tc_ids`). -/
def tcIds (builds : List BuildEvent) : List Nat :=
  (((builds.filter (fun b => b.building == "Town Center")).map
    (fun b => b.objectIds)).flatten).dedup

/-- The villager-production events of a player, sorted by time. -/
def villagerEvents (unit_events : List UnitEvent) : List UnitEvent :=
  sortEventsByTime (unit_events.filter (fun e => e.line == "villager"))

/-- The production times credited to one town-center id: each villager
event contributes its time once per occurrence of the id in its
`object_ids` (the `events_by_tc` accumulation loop). -/
def timesFor (tid : Nat) (vev : List UnitEvent) : List Int :=
  (vev.map (fun e =>
    (e.objectIds.filter (fun oid => oid == tid)).map (fun _ => (e.time : Int)))).flatten

/-- Ascending sort of an integer time list (`times = sorted(times)`). -/
def sortTimes (l : List Int) : List Int := List.insertionSort (· ≤ ·) l

/-- `_collect_tc_idle(unit_events, builds, duration, age_times)`: the
idle report and the `missing_ids` flag (`not had_ids`). -/
def collect_tc_idle (unit_events : List UnitEvent) (builds : List BuildEvent)
    (duration : Int) (ages : AgeTimes) : IdleAcc × Bool :=
  let vev := villagerEvents unit_events
  let tcs := tcIds builds
  if tcs = [] then
    (idleTimes ages duration 0 idleZero (vev.map (fun e => (e.time : Int))), true)
  else
    (tcs.foldl (fun st tid => idleTimes ages duration 0 st (sortTimes (timesFor tid vev)))
      idleZero, false)

/-! ### Switch/counter detector (`_detect_switches`) -/

/-- A detected opponent strategy switch. -/
structure SwitchEvent where
  time : Nat
  opponent_line : String
  delta : Nat
  confidence : String
deriving DecidableEq, Repr

/-- A correlated counter response. -/
structure ResponseRecord where
  opponent_line : String
  your_line : String
  response_time : Nat
  delay : Nat
  confidence : String
deriving DecidableEq, Repr

/-- A missed-counter-opportunity entry. -/
structure MissedChance where
  opponent_line : String
  suggested_counters : List String
  confidence : String
deriving DecidableEq, Repr

/-- Count of a line in a snapshot: `totals_by_line.get(line, 0)`. -/
def lineCount (snap : Snapshot) (line : String) : Nat :=
  (snap.totals_by_line.lookup line).getD 0

/-- The switch events contributed by one consecutive snapshot pair: for
each line of the current totals (skipping the excluded lines), fire when
`count - prev_count >= 5 and prev_count <= 2`. -/
def pairSwitches (prev curr : Snapshot) : List SwitchEvent :=
  curr.totals_by_line.filterMap (fun kv =>
    let pc := (prev.totals_by_line.lookup kv.1).getD 0
    if kv.1 = "villager" ∨ kv.1 = "fishing_ship" ∨ kv.1 = "trade" ∨ kv.1 = "unknown" then
      none
    else if pc + 5 ≤ kv.2 ∧ pc ≤ 2 then
      some ⟨curr.time, kv.1, kv.2 - pc, "low"⟩
    else none)

/-- All switch events over the opponent snapshot sequence
(`zip(opponent_snapshots, opponent_snapshots[1:])`). -/
def switchEvents (opp : List Snapshot) : List SwitchEvent :=
  ((opp.zip opp.tail).map (fun pq => pairSwitches pq.1 pq.2)).flatten

/-- First counter line (in table order) whose count reaches 3 in a
snapshot. -/
def findCounterIn (counters : List String) (snap : Snapshot) : Option String :=
  counters.find? (fun c => decide (3 ≤ lineCount snap c))

/-- The response search for one switch event: scan the viewer snapshots
at or after the event time, in order, for the first qualifying counter. -/
def respondTo (counterTable : List (String × List String)) (you : List Snapshot)
    (ev : SwitchEvent) : Option ResponseRecord :=
  let counters := (counterTable.lookup ev.opponent_line).getD []
  (you.filter (fun s => decide (ev.time ≤ s.time))).findSome? (fun s =>
    (findCounterIn counters s).map (fun c =>
      ⟨ev.opponent_line, c, s.time, s.time - ev.time, "low"⟩))

/-- The missed-opportunity entry recorded for an unanswered switch. -/
def missedFor (counterTable : List (String × List String)) (ev : SwitchEvent) :
    MissedChance :=
  ⟨ev.opponent_line, (counterTable.lookup ev.opponent_line).getD [], "low"⟩

/-- The response loop: each switch event, taken in order, contributes
either one response record or one missed-opportunity entry to the
respective output list. -/
def responseSplit (counterTable : List (String × List String)) (you : List Snapshot) :
    List SwitchEvent → List ResponseRecord × List MissedChance
  | [] => ([], [])
  | ev :: rest =>
      match respondTo counterTable you ev, responseSplit counterTable you rest with
      | some r, acc => (r :: acc.1, acc.2)
      | none, acc => (acc.1, missedFor counterTable ev :: acc.2)

/-- `_detect_switches(opponent_snapshots, you_snapshots)`: the switch
events, the response records, and the missed opportunities. -/
def detect_switches (counterTable : List (String × List String))
    (opp you : List Snapshot) :
    List SwitchEvent × List ResponseRecord × List MissedChance :=
  let evs := switchEvents opp
  let split := responseSplit counterTable you evs
  (evs, split.1, split.2)

/-! ### Duration parsing (`time_utils.coerce_seconds`) -/

/-- A dynamically typed value fed to `coerce_seconds`: Python `None`, an
int, a float (modelled exactly as a rational), or a string. -/
inductive TimeValue where
  | vNone : TimeValue
  | vInt : Int → TimeValue
  | vFloat : ℚ → TimeValue
  | vStr : String → TimeValue
deriving DecidableEq, Repr

/-- Decidable equality of parse results. -/
instance {ε α : Type} [DecidableEq ε] [DecidableEq α] : DecidableEq (Except ε α) :=
  fun x y =>
    match x, y with
    | .ok a, .ok b =>
        if h : a = b then .isTrue (congrArg Except.ok h)
        else .isFalse (fun hh => h (Except.ok.inj hh))
    | .error a, .error b =>
        if h : a = b then .isTrue (congrArg Except.error h)
        else .isFalse (fun hh => h (Except.error.inj hh))
    | .ok _, .error _ => .isFalse (fun hh => Except.noConfusion hh)
    | .error _, .ok _ => .isFalse (fun hh => Except.noConfusion hh)

/-- Python `int()` applied to a real value: truncation toward zero. -/
def truncQ (q : ℚ) : Int :=
  if 0 ≤ q then Int.floor q else -(Int.floor (-q))

/-- `str.strip()` on the underlying character list. -/
def pyStripL (l : List Char) : List Char :=
  ((l.dropWhile Char.isWhitespace).reverse.dropWhile Char.isWhitespace).reverse

/-- `str.isdigit()` (ASCII digits): nonempty and all digits. -/
def pyIsdigitL (l : List Char) : Bool :=
  !l.isEmpty && l.all Char.isDigit

/-- `value.replace(".", "", 1)`: drop the first dot, if any. -/
def removeFirst (sep : Char) : List Char → List Char
  | [] => []
  | c :: rest => if c = sep then rest else c :: removeFirst sep rest

/-- `str.split(sep)` for a one-character separator, keeping empty parts
exactly as Python does. -/
def splitOnChar (sep : Char) : List Char → List (List Char)
  | [] => [[]]
  | c :: rest =>
      let r := splitOnChar sep rest
      if c = sep then [] :: r
      else
        match r with
        | [] => [[c]]
        | h :: t => (c :: h) :: t

/-- The numeric value of a digit string. -/
def parseNatL (l : List Char) : Option Nat :=
  if pyIsdigitL l then some (l.foldl (fun a c => a * 10 + (c.toNat - 48)) 0) else none

/-- Python `int(string)`: optional surrounding whitespace, optional sign,
decimal digits; `none` models the `ValueError` of an unparsable literal. -/
def pyIntL (l : List Char) : Option Int :=
  match pyStripL l with
  | '-' :: rest => (parseNatL rest).map (fun n => -(n : Int))
  | '+' :: rest => (parseNatL rest).map (fun n => (n : Int))
  | t => (parseNatL t).map (fun n => (n : Int))

/-- An exact decimal value `num / den` (`den` a positive power of ten):
the idealised result of Python `float()` on a decimal literal. -/
structure DecValue where
  num : Int
  den : Nat
deriving DecidableEq, Repr

/-- Truncation toward zero of `num / den`, Python `int()` on a float. -/
def decTrunc (v : DecValue) : Int :=
  if 0 ≤ v.num then v.num.toNat / v.den else -((-v.num).toNat / v.den : Nat)

/-- Add an integer to a decimal value. -/
def decAddInt (a : Int) (v : DecValue) : DecValue := ⟨a * v.den + v.num, v.den⟩

/-- Unsigned decimal literal with at most one dot. -/
def pyFloatPosL (t : List Char) : Option DecValue :=
  match splitOnChar '.' t with
  | [a] => (parseNatL a).map (fun n => ⟨n, 1⟩)
  | [a, b] =>
      if a.isEmpty && b.isEmpty then none
      else
        match (if a.isEmpty then some 0 else parseNatL a),
              (if b.isEmpty then some 0 else parseNatL b) with
        | some x, some y => some ⟨x * 10 ^ b.length + y, 10 ^ b.length⟩
        | _, _ => none
  | _ => none

/-- Python `float(string)` on the literals the parser meets. -/
def pyFloatL (l : List Char) : Option DecValue :=
  match pyStripL l with
  | '-' :: rest => (pyFloatPosL rest).map (fun v => ⟨-v.num, v.den⟩)
  | '+' :: rest => pyFloatPosL rest
  | t => pyFloatPosL t

/-- `coerce_seconds(value)`: `None` and blank strings give 0, numbers are
truncated, digit strings are parsed as floats, `M:SS` and `H:MM:SS`
clock strings are converted, and anything else is a `ValueError`,
returned here as `.error`. -/
def coerce_seconds : TimeValue → Except String Int
  | .vNone => .ok 0
  | .vInt n => .ok n
  | .vFloat q => .ok (truncQ q)
  | .vStr s =>
      let stripped := pyStripL s.data
      if stripped.isEmpty then .ok 0
      else if pyIsdigitL (removeFirst '.' stripped) then
        match pyFloatPosL stripped with
        | some v => .ok (decTrunc v)
        | none => .error "could not convert string to float"
      else
        match splitOnChar ':' stripped with
        | [p0, p1] =>
            match pyIntL p0, pyFloatL p1 with
            | some m, some sec => .ok (decTrunc (decAddInt (m * 60) sec))
            | _, _ => .error "invalid literal for int or float"
        | [p0, p1, p2] =>
            match pyIntL p0, pyIntL p1, pyFloatL p2 with
            | some h, some m, some sec =>
                .ok (decTrunc (decAddInt (h * 3600 + m * 60) sec))
            | _, _, _ => .error "invalid literal for int or float"
        | _ => .error "Unsupported time format"

/-! ### Viewer selection (`find_player`) -/

/-- A player record: its name, and a tag standing for the rest of the
Python dict so that record equality (`p != player`) is meaningful. -/
structure Player where
  name : String
  tag : Nat
deriving DecidableEq, Repr

/-- `str.lower()`, character by character (ASCII). -/
def strLower (s : String) : String := String.mk (s.data.map Char.toLower)

/-- Python truthiness of the optional `you_name` argument. -/
def truthyStr : Option String → Bool
  | some s => !s.isEmpty
  | none => false

/-- Python truthiness of the optional `you_player` argument. -/
def truthyInt : Option Int → Bool
  | some n => decide (n ≠ 0)
  | none => false

/-- `next(p for p in players if p != player)`: the first record differing
from `p`; `none` models the `StopIteration` crash when every record
equals `p`. -/
def firstOther (players : List Player) (p : Player) : Option Player :=
  players.find? (fun q => decide (q ≠ p))

/-- `find_player(players, you_name, you_player)`.  The result is `none`
exactly when the Python function raises (`StopIteration` from the
opponent generator, or `IndexError` on an empty list). -/
def find_player (players : List Player) (youName : Option String)
    (youPlayer : Option Int) : Option (Player × Player) :=
  let nameRes : Option (Option (Player × Player)) :=
    if truthyStr youName then
      match players.find?
          (fun p => strLower p.name == strLower (youName.getD "")) with
      | some p => some ((firstOther players p).map (fun o => (p, o)))
      | none => none
    else none
  match nameRes with
  | some r => r
  | none =>
      let posRes : Option (Option (Player × Player)) :=
        if truthyInt youPlayer then
          let idx : Int := max 0 (youPlayer.getD 0 - 1)
          if h : idx.toNat < players.length then
            some ((firstOther players (players.get ⟨idx.toNat, h⟩)).map
              (fun o => (players.get ⟨idx.toNat, h⟩, o)))
          else none
        else none
      match posRes with
      | some r => r
      | none =>
          match players with
          | [] => none
          | p :: rest => some (p, rest.headD p)

/-! ### Spec-side definitions

The following definitions are transcribed from the specification's words
(not from the source); they are compared against the embedded code. -/

/-- The declarative per-gap idle formula the code satisfies: walking the
production times from a previous time of 0, a consecutive gap contributes
`next - prev - 25` exactly when that quantity exceeds 5, and the tail gap
contributes `duration - last - 25` whenever the last production time is
nonzero and that quantity is positive. -/
def gapIdle (duration : Int) : Int → List Int → Int
  | last, [] => if last ≠ 0 ∧ last + 25 < duration then duration - last - 25 else 0
  | last, t :: rest =>
      (if 5 < t - last - 25 then t - last - 25 else 0) + gapIdle duration t rest

/-- The claim's version of the gap rule, tail included: every gap,
the tail one too, contributes `max(0, gap)` only when
`gap = next - prev - 25 > 5`. -/
def claimedGapIdle (duration : Int) : Int → List Int → Int
  | last, [] => if 5 < duration - last - 25 then max 0 (duration - last - 25) else 0
  | last, t :: rest =>
      (if 5 < t - last - 25 then max 0 (t - last - 25) else 0) +
        claimedGapIdle duration t rest

/-- The Dark-age wall-clock span clipped at match start and duration. -/
def ageSpanDark (ages : AgeTimes) (duration : Int) : Int :=
  max 0 (min (optTime ages.feudal duration) duration - max 0 0)

/-- The Feudal-age wall-clock span clipped at match start and duration. -/
def ageSpanFeudal (ages : AgeTimes) (duration : Int) : Int :=
  max 0 (min (optTime ages.castle duration) duration - max (optTime ages.feudal 0) 0)

/-- The Castle-age wall-clock span clipped at match start and duration. -/
def ageSpanCastle (ages : AgeTimes) (duration : Int) : Int :=
  max 0 (min (optTime ages.imperial duration) duration - max (optTime ages.castle 0) 0)

/-- The Imperial-age wall-clock span clipped at match start and duration. -/
def ageSpanImperial (ages : AgeTimes) (duration : Int) : Int :=
  max 0 (min duration duration - max (optTime ages.imperial 0) 0)

/-! ### Concrete inputs used by witnesses and counterexamples -/

/-- An age-times record with every click unresolved. -/
def agesNone : AgeTimes := ⟨none, none, none⟩

/-- The villager events of the spec's 900-second scenario: productions at
0, 25, 50 and 300 seconds, all on town-center object id 1. -/
def scenarioEvents : List UnitEvent :=
  [⟨0, "villager", [1]⟩, ⟨25, "villager", [1]⟩, ⟨50, "villager", [1]⟩,
   ⟨300, "villager", [1]⟩]

/-- The Town Center build event of the 900-second scenario. -/
def scenarioBuilds : List BuildEvent := [⟨0, "Town Center", [1]⟩]

/-- Two town centers, each with a single villager at t = 30. -/
def twoTcEvents : List UnitEvent :=
  [⟨30, "villager", [1]⟩, ⟨30, "villager", [2]⟩]

/-- A single build event carrying both town-center ids. -/
def twoTcBuilds : List BuildEvent := [⟨0, "Town Center", [1, 2]⟩]

/-- The single-event input of the C7 witness. -/
def c7events : List UnitEvent := [⟨0, "knight_line", []⟩]

/-- A one-element player list. -/
def alice : Player := ⟨"Alice", 0⟩

/-- A second, distinct player. -/
def bob : Player := ⟨"Bob", 1⟩

/-! ### Auxiliary notions used by the theorems -/

/-- Pointwise domination of cumulative totals: every key present in `a`
is present in `b` with a value at least as large. -/
def totalsLe (a b : List (String × Nat)) : Prop :=
  ∀ k v, a.lookup k = some v → ∃ w, b.lookup k = some w ∧ v ≤ w

/-- The list of `(start, end)` intervals handed to `add_idle` by one
timeline pass of the idle detector. -/
def idleIntervals (duration : Int) : Int → List Int → List (Int × Int)
  | last, [] =>
      if last ≠ 0 ∧ last + 25 < duration then [(last + 25, duration)] else []
  | last, t :: rest =>
      (if 5 < t - last - 25 then [(last + 25, t)] else []) ++
        idleIntervals duration t rest

/-- The number of idle timelines the detector walks: one per distinct
town-center id, or a single aggregate timeline when ids are missing. -/
def timelineCount (builds : List BuildEvent) : Int :=
  if tcIds builds = [] then 1 else (tcIds builds).length

/-- A progressively ordered interval list: starts after `lo`, each
interval is nonempty, ends by `duration`, and later intervals start after
earlier ones end. -/
def IntervalChain (duration : Int) : Int → List (Int × Int) → Prop
  | _, [] => True
  | lo, (s, e) :: rest => lo ≤ s ∧ s ≤ e ∧ e ≤ duration ∧ IntervalChain duration e rest

/-! ## Theorems -/

/-! ### Helper lemmas for the composition snapshotter -/

/-- Looking a key up after a bump: the bumped line gains one, every other
key is untouched. -/
theorem lookup_bumpLine (totals : List (String × Nat)) (line k : String) :
    (bumpLine totals line).lookup k =
      if k = line then some ((totals.lookup k).getD 0 + 1) else totals.lookup k := by
  induction totals with
  | nil =>
      by_cases h : k = line
      · subst h; simp [bumpLine, List.lookup]
      · have hb : (k == line) = false := by simp [h]
        simp [bumpLine, List.lookup, hb, h]
  | cons kv rest ih =>
      obtain ⟨k0, v0⟩ := kv
      by_cases hk : k = k0
      · subst hk
        by_cases h0 : k = line
        · subst h0; simp [bumpLine, List.lookup]
        · simp [bumpLine, h0, List.lookup]
      · have hb : (k == k0) = false := by simp [hk]
        by_cases h0 : k0 = line
        · subst h0
          simp [bumpLine, List.lookup, hb, hk]
        · simp [bumpLine, h0, List.lookup, hb, ih]

/-- `totalsLe` is reflexive. -/
theorem totalsLe_refl (a : List (String × Nat)) : totalsLe a a :=
  fun _ v h => ⟨v, h, le_refl v⟩

/-- `totalsLe` is transitive. -/
theorem totalsLe_trans {a b c : List (String × Nat)}
    (hab : totalsLe a b) (hbc : totalsLe b c) : totalsLe a c := by
  intro k v h
  obtain ⟨w, hw, hvw⟩ := hab k v h
  obtain ⟨u, hu, hwu⟩ := hbc k w hw
  exact ⟨u, hu, le_trans hvw hwu⟩

/-- Bumping a line never loses a key or decreases a count. -/
theorem totalsLe_bumpLine (totals : List (String × Nat)) (line : String) :
    totalsLe totals (bumpLine totals line) := by
  intro k v h
  rw [lookup_bumpLine]
  by_cases hk : k = line
  · rw [if_pos hk, h]
    exact ⟨v + 1, rfl, Nat.le_succ v⟩
  · rw [if_neg hk]
    exact ⟨v, h, le_refl v⟩

/-- The cursor loop only ever bumps the totals. -/
theorem totalsLe_consume (events : List UnitEvent) :
    ∀ (totals : List (String × Nat)) (bucket : Nat),
      totalsLe totals (consume events totals bucket).1 := by
  induction events with
  | nil => intro t b; exact totalsLe_refl t
  | cons e rest ih =>
      intro t b
      by_cases h : e.time ≤ b
      · simpa [consume, h] using
          totalsLe_trans (totalsLe_bumpLine t e.line) (ih (bumpLine t e.line) b)
      · simpa [consume, h] using totalsLe_refl t

/-- The snapshots built by the bucket loop carry monotonically growing
totals. -/
theorem chain_snapshotsAux (goldLines trashLines : List String) :
    ∀ (buckets : List Nat) (events : List UnitEvent) (totals : List (String × Nat)),
      List.Chain' (fun a b => totalsLe a.totals_by_line b.totals_by_line)
        (snapshotsAux goldLines trashLines buckets events totals) := by
  intro buckets
  induction buckets with
  | nil => intro _ _; simp [snapshotsAux]
  | cons b bs ih =>
      intro events totals
      rw [snapshotsAux, List.chain'_cons']
      refine ⟨?_, ih _ _⟩
      intro s hs
      cases bs with
      | nil => simp [snapshotsAux] at hs
      | cons b2 bs2 =>
          rw [snapshotsAux] at hs
          simp only [List.head?_cons, Option.mem_def, Option.some.injEq] at hs
          subst hs
          show totalsLe (mkSnapshot goldLines trashLines (consume events totals b).1 b).totals_by_line _
          simp only [mkSnapshot]
          exact totalsLe_consume _ _ _

/-- Claim C2: across the snapshot sequence of `snapshot_composition`,
every key present in a snapshot is present in the next one with a count
at least as large — counts accumulate and are never reset or removed. -/
theorem c2_totals_monotone (unit_events : List UnitEvent) (duration : Nat)
    (age_times : AgeTimes) (interval : Nat) (goldLines trashLines : List String) :
    List.Chain' (fun a b => totalsLe a.totals_by_line b.totals_by_line)
      (snapshot_composition unit_events duration age_times interval
        goldLines trashLines) :=
  chain_snapshotsAux goldLines trashLines _ _ _

/-- Claim C8: `coerce_seconds` returns 5400 for "1:30:00", 754 for
"12:34", 125 for the integer 125, and raises a format error for the
unsupported input "bogus". -/
theorem c8_coerce_scenarios :
    coerce_seconds (.vStr "1:30:00") = .ok 5400 ∧
    coerce_seconds (.vStr "12:34") = .ok 754 ∧
    coerce_seconds (.vInt 125) = .ok 125 ∧
    ∃ msg, coerce_seconds (.vStr "bogus") = .error msg := by
  refine ⟨by decide, by decide, rfl, "Unsupported time format", by decide⟩

/-- Every emitted snapshot is an `mkSnapshot` image. -/
theorem mem_snapshotsAux (goldLines trashLines : List String) :
    ∀ (buckets : List Nat) (events : List UnitEvent) (totals : List (String × Nat))
      (s : Snapshot), s ∈ snapshotsAux goldLines trashLines buckets events totals →
      ∃ tot b, s = mkSnapshot goldLines trashLines tot b := by
  intro buckets
  induction buckets with
  | nil => intro _ _ s hs; simp [snapshotsAux] at hs
  | cons b bs ih =>
      intro events totals s hs
      rw [snapshotsAux] at hs
      rcases List.mem_cons.mp hs with h | h
      · exact ⟨_, _, h⟩
      · exact ih _ _ s h

/-- Claim C7: in every snapshot produced by `snapshot_composition`, the
gold and trash percentages are null exactly when the military total is
zero, and otherwise equal the exact count-over-military quotients. -/
theorem c7_pct_null_iff (unit_events : List UnitEvent) (duration : Nat)
    (age_times : AgeTimes) (interval : Nat) (goldLines trashLines : List String)
    (s : Snapshot)
    (hs : s ∈ snapshot_composition unit_events duration age_times interval
      goldLines trashLines) :
    (s.gold_pct = none ↔ s.military_total = 0) ∧
    (s.trash_pct = none ↔ s.military_total = 0) ∧
    (s.military_total ≠ 0 →
      s.gold_pct = some ((s.gold_units_total : ℚ) / (s.military_total : ℚ)) ∧
      s.trash_pct = some ((s.trash_units_total : ℚ) / (s.military_total : ℚ))) := by
  obtain ⟨tot, b, rfl⟩ := mem_snapshotsAux goldLines trashLines _ _ _ s hs
  by_cases h : sumCounts tot
      (fun l => !(l == "villager" || l == "fishing_ship" || l == "trade")) = 0
  · simp [mkSnapshot, h]
  · simp [mkSnapshot, h]

/-- Claim C7 witness: the snapshot of the one-knight input at bucket 0
is emitted, its military total is 1, and both percentages are the exact
quotients. -/
theorem c7_witness :
    mkSnapshot ["knight_line"] [] [("knight_line", 1)] 0 ∈
      snapshot_composition c7events 0 agesNone 300 ["knight_line"] [] ∧
    (((mkSnapshot ["knight_line"] [] [("knight_line", 1)] 0).gold_pct = none ↔
        (mkSnapshot ["knight_line"] [] [("knight_line", 1)] 0).military_total = 0) ∧
      ((mkSnapshot ["knight_line"] [] [("knight_line", 1)] 0).trash_pct = none ↔
        (mkSnapshot ["knight_line"] [] [("knight_line", 1)] 0).military_total = 0) ∧
      ((mkSnapshot ["knight_line"] [] [("knight_line", 1)] 0).military_total ≠ 0 →
        (mkSnapshot ["knight_line"] [] [("knight_line", 1)] 0).gold_pct =
          some (((mkSnapshot ["knight_line"] [] [("knight_line", 1)] 0).gold_units_total : ℚ) /
            ((mkSnapshot ["knight_line"] [] [("knight_line", 1)] 0).military_total : ℚ)) ∧
        (mkSnapshot ["knight_line"] [] [("knight_line", 1)] 0).trash_pct =
          some (((mkSnapshot ["knight_line"] [] [("knight_line", 1)] 0).trash_units_total : ℚ) /
            ((mkSnapshot ["knight_line"] [] [("knight_line", 1)] 0).military_total : ℚ)))) := by
  have hmem : mkSnapshot ["knight_line"] [] [("knight_line", 1)] 0 ∈
      snapshot_composition c7events 0 agesNone 300 ["knight_line"] [] :=
    List.Mem.head _
  exact ⟨hmem, c7_pct_null_iff c7events 0 agesNone 300 ["knight_line"] [] _ hmem⟩

/-! ### Helper lemmas for the bucket boundaries -/

/-- The snapshot times are exactly the bucket list. -/
theorem map_time_snapshotsAux (goldLines trashLines : List String) :
    ∀ (buckets : List Nat) (events : List UnitEvent) (totals : List (String × Nat)),
      (snapshotsAux goldLines trashLines buckets events totals).map (fun s => s.time) =
        buckets := by
  intro buckets
  induction buckets with
  | nil => intro _ _; simp [snapshotsAux]
  | cons b bs ih => intro e tot; simp [snapshotsAux, mkSnapshot, ih]

/-- Membership in the fixed-interval seed: the multiples of the interval
below `duration + interval`. -/
theorem mem_bucketBase {interval : Nat} (hi : 0 < interval) (duration t : Nat) :
    t ∈ bucketBase duration interval ↔
      ∃ k, t = k * interval ∧ t < duration + interval := by
  unfold bucketBase pyRange3
  simp only [List.mem_map, List.mem_range]
  constructor
  · rintro ⟨k, hk, rfl⟩
    refine ⟨k, rfl, ?_⟩
    have h2 : k + 1 ≤ (max duration 0 + interval + interval - 1) / interval := hk
    rw [Nat.le_div_iff_mul_le hi] at h2
    have h3 : (k + 1) * interval = k * interval + interval := by ring
    rw [h3] at h2
    generalize k * interval = p at h2 ⊢
    omega
  · rintro ⟨k, rfl, hlt⟩
    refine ⟨k, ?_, rfl⟩
    rw [Nat.lt_iff_add_one_le, Nat.le_div_iff_mul_le hi]
    have h3 : (k + 1) * interval = k * interval + interval := by ring
    rw [h3]
    generalize k * interval = p at hlt ⊢
    omega

/-- Membership through one age-click insertion. -/
theorem mem_addBucket (acc : List Nat) (o : Option Nat) (t : Nat) :
    t ∈ addBucket acc o ↔ t ∈ acc ∨ o = some t := by
  cases o with
  | none => simp [addBucket]
  | some x =>
      simp only [addBucket, Option.some.injEq]
      by_cases hx : x ∈ acc
      · rw [if_pos hx]
        constructor
        · intro h; exact Or.inl h
        · rintro (h | rfl)
          · exact h
          · exact hx
      · rw [if_neg hx]
        rw [List.mem_append, List.mem_singleton]
        constructor
        · rintro (h | rfl)
          · exact Or.inl h
          · exact Or.inr rfl
        · rintro (h | rfl)
          · exact Or.inl h
          · exact Or.inr rfl

/-- `sorted(set(l))` keeps exactly the elements of `l`. -/
theorem mem_sortedDedup (l : List Nat) (t : Nat) : t ∈ sortedDedup l ↔ t ∈ l := by
  unfold sortedDedup
  rw [(List.perm_insertionSort (· ≤ ·) l.dedup).mem_iff, List.mem_dedup]

/-- `sorted(set(l))` is strictly increasing. -/
theorem sorted_lt_sortedDedup (l : List Nat) :
    List.Sorted (· < ·) (sortedDedup l) := by
  have hs : List.Sorted (· ≤ ·) (sortedDedup l) :=
    List.sorted_insertionSort (· ≤ ·) l.dedup
  have hnd : (sortedDedup l).Nodup :=
    ((List.perm_insertionSort (· ≤ ·) l.dedup).nodup_iff).mpr l.nodup_dedup
  exact hs.lt_of_le hnd

/-- Claim C1, amended: the bucket boundaries are exactly the multiples of
the interval below `duration + interval` (so up to the least multiple
reaching the duration) together with the non-null age click times,
strictly sorted, and the emitted snapshot times are exactly these
boundaries. -/
theorem c1_bucket_boundaries (unit_events : List UnitEvent) (duration : Nat)
    (age_times : AgeTimes) (interval : Nat) (goldLines trashLines : List String)
    (hi : 0 < interval) :
    ((snapshot_composition unit_events duration age_times interval goldLines
        trashLines).map (fun s => s.time) =
      snapshotBuckets duration age_times interval) ∧
    (∀ t, t ∈ snapshotBuckets duration age_times interval ↔
      ((∃ k, t = k * interval ∧ t < duration + interval) ∨
        age_times.feudal = some t ∨ age_times.castle = some t ∨
        age_times.imperial = some t)) ∧
    List.Sorted (· < ·) (snapshotBuckets duration age_times interval) := by
  refine ⟨map_time_snapshotsAux goldLines trashLines _ _ _, ?_, ?_⟩
  · intro t
    unfold snapshotBuckets
    rw [mem_sortedDedup, mem_addBucket, mem_addBucket, mem_addBucket,
      mem_bucketBase hi]
    generalize (∃ k, t = k * interval ∧ t < duration + interval) = E
    tauto
  · exact sorted_lt_sortedDedup _

/-- Claim C1 witness: the amended characterisation instantiated at the
100-second, clickless input with the default 300-second interval. -/
theorem c1_witness :
    ((snapshot_composition [] 100 agesNone 300 [] []).map (fun s => s.time) =
      snapshotBuckets 100 agesNone 300) ∧
    (∀ t, t ∈ snapshotBuckets 100 agesNone 300 ↔
      ((∃ k, t = k * 300 ∧ t < 100 + 300) ∨
        agesNone.feudal = some t ∨ agesNone.castle = some t ∨
        agesNone.imperial = some t)) ∧
    List.Sorted (· < ·) (snapshotBuckets 100 agesNone 300) :=
  c1_bucket_boundaries [] 100 agesNone 300 [] [] (by decide)

/-- Claim C1 is false as stated: with duration 100 (not a multiple of the
300-second interval), no events and no age clicks, the snapshot times are
0 and 300, and 300 does not lie within the duration, nor is it a multiple
of the interval no greater than the duration. -/
theorem c1_counterexample :
    (snapshot_composition [] 100 agesNone 300 [] []).map (fun s => s.time) = [0, 300] ∧
    ¬ (300 ≤ 100) := by
  exact ⟨by decide, by decide⟩

/-- Claim C3 is false as stated: a lone villager at t = 100 with
duration 128 leaves a tail gap of 128 − 100 − 25 = 3 ≤ 5 seconds, which
the claim's rule would not count, yet the detector adds it: the reported
total is 78, not the 75 the claim's per-gap rule yields. -/
theorem c3_counterexample :
    (collect_tc_idle [⟨100, "villager", []⟩] [] 128 agesNone).1.total = 78 ∧
    claimedGapIdle 128 0 [100] = 75 ∧ (78 : Int) ≠ 75 := by
  exact ⟨by decide, by decide, by decide⟩

/-- Claim C4 is false as stated: on the 900-second scenario the detector
reports a total of 800 seconds, not approximately 575 — the 50 → 300 gap
already contributes 225 seconds of idle before t = 300. -/
theorem c4_counterexample :
    (collect_tc_idle scenarioEvents scenarioBuilds 900 agesNone).1.total = 800 ∧
    (800 : Int) ≠ 575 := by
  exact ⟨by decide, by decide⟩

/-- Claim C4, amended: on the 900-second scenario the gap from 50 to 300
contributes 300 − 50 − 25 = 225 idle seconds before t = 300, the trailing
gap contributes 900 − 300 − 25 = 575, and the reported total is 800. -/
theorem c4_scenario_total :
    (collect_tc_idle scenarioEvents scenarioBuilds 900 agesNone).1.total = 800 ∧
    (if (5 : Int) < 300 - 50 - 25 then (300 : Int) - 50 - 25 else 0) = 225 ∧
    (900 : Int) - 300 - 25 = 575 := by
  exact ⟨by decide, by decide, by decide⟩

/-- Claim C5 is false as stated: with two town centers each idle from
t = 55 to t = 900 and no resolved age clicks, the Dark bucket is credited
1690 idle seconds although its clipped wall-clock span is only 900. -/
theorem c5_counterexample :
    (collect_tc_idle twoTcEvents twoTcBuilds 900 agesNone).1.dark = 1690 ∧
    ageSpanDark agesNone 900 = 900 ∧ ¬ ((1690 : Int) ≤ 900) := by
  exact ⟨by decide, by decide, by decide⟩

/-- Claim C9 is false as stated: on the one-element list whose sole
player's name matches the request, the opponent generator finds no record
differing from the match and the function raises instead of returning
the matched player. -/
theorem c9_counterexample :
    find_player [alice] (some "alice") none = none := by decide

/-! ### Switch/counter partition -/

/-- The response loop is the filterMap/filter split of the event list. -/
theorem responseSplit_eq (counterTable : List (String × List String))
    (you : List Snapshot) :
    ∀ evs : List SwitchEvent,
      responseSplit counterTable you evs =
        (evs.filterMap (respondTo counterTable you),
          (evs.filter (fun ev => (respondTo counterTable you ev).isNone)).map
            (missedFor counterTable)) := by
  intro evs
  induction evs with
  | nil => rfl
  | cons ev rest ih =>
      cases h : respondTo counterTable you ev with
      | some r =>
          simp [responseSplit, h, ih, List.filterMap_cons, List.filter_cons]
      | none =>
          simp [responseSplit, h, ih, List.filterMap_cons, List.filter_cons]

/-- One output entry per switch event. -/
theorem responseSplit_length (counterTable : List (String × List String))
    (you : List Snapshot) :
    ∀ evs : List SwitchEvent,
      (responseSplit counterTable you evs).1.length +
        (responseSplit counterTable you evs).2.length = evs.length := by
  intro evs
  induction evs with
  | nil => rfl
  | cons ev rest ih =>
      cases h : respondTo counterTable you ev with
      | some r => simp only [responseSplit, h]; simp; omega
      | none => simp only [responseSplit, h]; simp; omega

/-- Claim C6: every detected switch event yields exactly one output —
the events with a qualifying counter response become the response list,
those without become the missed-opportunity list, and the two lengths add
up to the number of switch events. -/
theorem c6_switch_partition (counterTable : List (String × List String))
    (opp you : List Snapshot) :
    (detect_switches counterTable opp you).2.1.length +
      (detect_switches counterTable opp you).2.2.length =
      (detect_switches counterTable opp you).1.length ∧
    (detect_switches counterTable opp you).2.1 =
      (detect_switches counterTable opp you).1.filterMap
        (respondTo counterTable you) ∧
    (detect_switches counterTable opp you).2.2 =
      ((detect_switches counterTable opp you).1.filter
        (fun ev => (respondTo counterTable you ev).isNone)).map
        (missedFor counterTable) := by
  refine ⟨?_, ?_, ?_⟩
  · exact responseSplit_length counterTable you (switchEvents opp)
  · rw [show (detect_switches counterTable opp you).2.1 =
        (responseSplit counterTable you (switchEvents opp)).1 from rfl,
      responseSplit_eq]
    rfl
  · rw [show (detect_switches counterTable opp you).2.2 =
        (responseSplit counterTable you (switchEvents opp)).2 from rfl,
      responseSplit_eq]
    rfl

/-! ### Idle-detector lemmas -/

/-- No villager events means no production times for any timeline. -/
theorem timesFor_nil (tid : Nat) : timesFor tid [] = [] := rfl

/-- A timeline pass over an empty time list leaves the accumulator
untouched when the carried `last_time` is 0. -/
theorem idleTimes_nil_zero (ages : AgeTimes) (duration : Int) (st : IdleAcc) :
    idleTimes ages duration 0 st [] = st := by
  simp [idleTimes]

/-- Claim C10: a player with no villager-production events is charged no
town-center idle time at all — total and every age bucket stay 0. -/
theorem c10_no_villagers_zero_idle (unit_events : List UnitEvent)
    (builds : List BuildEvent) (duration : Int) (ages : AgeTimes)
    (h : ∀ e ∈ unit_events, e.line ≠ "villager") :
    (collect_tc_idle unit_events builds duration ages).1 = idleZero := by
  have hv : villagerEvents unit_events = [] := by
    unfold villagerEvents
    have : unit_events.filter (fun e => e.line == "villager") = [] := by
      rw [List.filter_eq_nil_iff]
      intro e he
      simp [h e he]
    rw [this]
    rfl
  unfold collect_tc_idle
  rw [hv]
  by_cases htc : tcIds builds = []
  · simp [htc, idleTimes_nil_zero]
  · rw [if_neg htc]
    have : ∀ (l : List Nat) (st : IdleAcc),
        l.foldl (fun st tid =>
          idleTimes ages duration 0 st (sortTimes (timesFor tid []))) st = st := by
      intro l
      induction l with
      | nil => intro st; rfl
      | cons tid rest ih =>
          intro st
          rw [List.foldl_cons, timesFor_nil]
          rw [show sortTimes [] = [] from rfl, idleTimes_nil_zero]
          exact ih st
    simp [this]

/-- Claim C10 witness: a player whose only event is a knight at t = 5 is
charged no idle time on the 900-second match. -/
theorem c10_witness :
    (collect_tc_idle [⟨5, "knight_line", []⟩] scenarioBuilds 900 agesNone).1 =
      idleZero :=
  c10_no_villagers_zero_idle [⟨5, "knight_line", []⟩] scenarioBuilds 900 agesNone
    (by decide)

/-- The running total of a timeline pass adds exactly the declarative
per-gap sum. -/
theorem idleTimes_total (ages : AgeTimes) (duration : Int) :
    ∀ (ts : List Int) (last : Int) (st : IdleAcc),
      (idleTimes ages duration last st ts).total = st.total + gapIdle duration last ts := by
  intro ts
  induction ts with
  | nil =>
      intro last st
      by_cases h : last ≠ 0 ∧ last + 25 < duration
      · rw [show idleTimes ages duration last st [] =
            addIdle ages duration st (last + 25) duration from if_pos h,
          show gapIdle duration last [] = duration - last - 25 from if_pos h]
        simp only [addIdle]
        omega
      · rw [show idleTimes ages duration last st [] = st from if_neg h,
          show gapIdle duration last [] = 0 from if_neg h]
        omega
  | cons t rest ih =>
      intro last st
      show (idleTimes ages duration t
          (if 5 < t - last - 25 then addIdle ages duration st (last + 25) t else st)
          rest).total = st.total + (_ + gapIdle duration t rest)
      rw [ih]
      by_cases h : 5 < t - last - 25
      · rw [if_pos h, if_pos h]
        simp only [addIdle]
        omega
      · rw [if_neg h, if_neg h]
        omega

/-- Claim C3, amended: the reported idle total is exactly the per-gap sum
over each timeline — a consecutive-production gap contributes
`next − prev − 25` exactly when that exceeds 5 (with the previous time
starting at 0), while the tail gap contributes `duration − last − 25`
whenever the last production time is nonzero and that quantity is
positive, with no 5-second tolerance. -/
theorem c3_idle_gap_rule (unit_events : List UnitEvent) (builds : List BuildEvent)
    (duration : Int) (ages : AgeTimes) :
    (collect_tc_idle unit_events builds duration ages).1.total =
      if tcIds builds = [] then
        gapIdle duration 0 ((villagerEvents unit_events).map (fun e => (e.time : Int)))
      else
        ((tcIds builds).map (fun tid =>
          gapIdle duration 0 (sortTimes (timesFor tid (villagerEvents unit_events))))).sum := by
  unfold collect_tc_idle
  by_cases htc : tcIds builds = []
  · rw [if_pos htc, if_pos htc]
    rw [show ((idleTimes ages duration 0 idleZero
        ((villagerEvents unit_events).map (fun e => (e.time : Int)))), true).1 =
      idleTimes ages duration 0 idleZero
        ((villagerEvents unit_events).map (fun e => (e.time : Int))) from rfl]
    rw [idleTimes_total]
    simp [idleZero]
  · rw [if_neg htc, if_neg htc]
    have hfold : ∀ (l : List Nat) (st : IdleAcc),
        (l.foldl (fun st tid =>
          idleTimes ages duration 0 st
            (sortTimes (timesFor tid (villagerEvents unit_events)))) st).total =
          st.total + (l.map (fun tid =>
            gapIdle duration 0 (sortTimes (timesFor tid (villagerEvents unit_events))))).sum := by
      intro l
      induction l with
      | nil => intro st; simp
      | cons tid rest ih =>
          intro st
          rw [List.foldl_cons, List.map_cons, List.sum_cons, ih, idleTimes_total]
          omega
    rw [show ((tcIds builds).foldl (fun st tid =>
        idleTimes ages duration 0 st
          (sortTimes (timesFor tid (villagerEvents unit_events)))) idleZero, false).1 =
      (tcIds builds).foldl (fun st tid =>
        idleTimes ages duration 0 st
          (sortTimes (timesFor tid (villagerEvents unit_events)))) idleZero from rfl]
    rw [hfold]
    simp [idleZero]

/-! ### Viewer selection, amended -/

/-- Claim C9, amended, as the full selection cascade for arbitrary
`you_name`/`you_player` arguments: (a) a truthy requested name whose
first case-insensitive match has a differing record in the list returns
that match with the first differing record; (a\') such a match with no
differing record raises instead of returning; (b) when the name branch
passes through (untruthy name, or no player matches), a truthy position
whose clamped index is in range returns that player with the first
differing record, (b\') or raises when no record differs from it; (c)
when both branches pass through (name untruthy or unmatched, and
position untruthy or out of range), the first player is returned with
the second as opponent, or with itself on a singleton list. -/
theorem c9_find_player_amended :
    (∀ (players : List Player) (youName : Option String) (youPlayer : Option Int)
        (p q : Player),
      truthyStr youName = true →
      players.find? (fun r => strLower r.name == strLower (youName.getD "")) = some p →
      firstOther players p = some q →
      find_player players youName youPlayer = some (p, q)) ∧
    (∀ (players : List Player) (youName : Option String) (youPlayer : Option Int)
        (p : Player),
      truthyStr youName = true →
      players.find? (fun r => strLower r.name == strLower (youName.getD "")) = some p →
      firstOther players p = none →
      find_player players youName youPlayer = none) ∧
    (∀ (players : List Player) (youName : Option String) (youPlayer : Option Int)
        (q : Player),
      (truthyStr youName = false ∨
        players.find? (fun r => strLower r.name == strLower (youName.getD "")) = none) →
      truthyInt youPlayer = true →
      ∀ (h : (max 0 (youPlayer.getD 0 - 1)).toNat < players.length),
      firstOther players (players.get ⟨(max 0 (youPlayer.getD 0 - 1)).toNat, h⟩) =
        some q →
      find_player players youName youPlayer =
        some (players.get ⟨(max 0 (youPlayer.getD 0 - 1)).toNat, h⟩, q)) ∧
    (∀ (players : List Player) (youName : Option String) (youPlayer : Option Int),
      (truthyStr youName = false ∨
        players.find? (fun r => strLower r.name == strLower (youName.getD "")) = none) →
      truthyInt youPlayer = true →
      ∀ (h : (max 0 (youPlayer.getD 0 - 1)).toNat < players.length),
      firstOther players (players.get ⟨(max 0 (youPlayer.getD 0 - 1)).toNat, h⟩) =
        none →
      find_player players youName youPlayer = none) ∧
    (∀ (p : Player) (rest : List Player) (youName : Option String)
        (youPlayer : Option Int),
      (truthyStr youName = false ∨
        (p :: rest).find? (fun r => strLower r.name == strLower (youName.getD "")) = none) →
      (truthyInt youPlayer = false ∨
        ¬ (max 0 (youPlayer.getD 0 - 1)).toNat < (p :: rest).length) →
      find_player (p :: rest) youName youPlayer = some (p, rest.headD p)) := by
  refine ⟨?_, ?_, ?_, ?_, ?_⟩
  · intro players youName youPlayer p q ht hfind hq
    simp [find_player, ht, hfind, hq]
  · intro players youName youPlayer p ht hfind hq
    simp [find_player, ht, hfind, hq]
  · intro players youName youPlayer q hmiss ht h hq
    simp only [List.get_eq_getElem] at hq
    rcases hmiss with hm | hm
    · simp [find_player, hm, ht, h, hq]
    · simp [find_player, hm, ht, h, hq]
  · intro players youName youPlayer hmiss ht h hq
    simp only [List.get_eq_getElem] at hq
    rcases hmiss with hm | hm
    · simp [find_player, hm, ht, h, hq]
    · simp [find_player, hm, ht, h, hq]
  · intro p rest youName youPlayer hnm hpm
    rcases hpm with hp | hp
    · rcases hnm with hm | hm <;> simp [find_player, hm, hp]
    · have hp2 : ¬ ((youPlayer.getD 0 - 1 : Int) < (rest.length : Int) + 1) := by
        simp only [List.length_cons] at hp
        omega
      rcases hnm with hm | hm <;> simp [find_player, hm, hp, hp2]

/-- Claim C9 witness: the cascade instantiated on concrete inputs — a
case-insensitive name match returning (Alice, Bob), a fall-through to a
position request returning (Bob, Alice), and a double fall-through on an
unmatched name and an out-of-range position returning the default
(Alice, Bob). -/
theorem c9_witness :
    find_player [alice, bob] (some "ALICE") none = some (alice, bob) ∧
    find_player [alice, bob] none (some 2) = some (bob, alice) ∧
    find_player [alice, bob] (some "zoe") (some 7) = some (alice, bob) :=
  ⟨c9_find_player_amended.1 [alice, bob] (some "ALICE") none alice bob
      (by decide) (by decide) (by decide),
    c9_find_player_amended.2.2.1 [alice, bob] none (some 2) alice
      (Or.inl (by decide)) (by decide) (by decide) (by decide),
    c9_find_player_amended.2.2.2.2 alice [bob] (some "zoe") (some 7)
      (Or.inr (by decide)) (Or.inr (by decide))⟩

/-! ### Per-age idle bounds -/

/-- The timeline pass is the fold of `add_idle` over its interval list. -/
theorem idleTimes_eq_foldl (ages : AgeTimes) (duration : Int) :
    ∀ (ts : List Int) (last : Int) (st : IdleAcc),
      idleTimes ages duration last st ts =
        (idleIntervals duration last ts).foldl
          (fun acc p => addIdle ages duration acc p.1 p.2) st := by
  intro ts
  induction ts with
  | nil =>
      intro last st
      by_cases h : last ≠ 0 ∧ last + 25 < duration
      · rw [show idleTimes ages duration last st [] =
            addIdle ages duration st (last + 25) duration from if_pos h,
          show idleIntervals duration last [] = [(last + 25, duration)] from if_pos h]
        rfl
      · rw [show idleTimes ages duration last st [] = st from if_neg h,
          show idleIntervals duration last [] = [] from if_neg h]
        rfl
  | cons t rest ih =>
      intro last st
      by_cases h : 5 < t - last - 25
      · show idleTimes ages duration t
            (if 5 < t - last - 25 then addIdle ages duration st (last + 25) t else st)
            rest = _
        rw [if_pos h,
          show idleIntervals duration last (t :: rest) =
            (last + 25, t) :: idleIntervals duration t rest from by
              show (if 5 < t - last - 25 then [(last + 25, t)] else []) ++ _ = _
              rw [if_pos h]; rfl,
          List.foldl_cons]
        exact ih t (addIdle ages duration st (last + 25) t)
      · show idleTimes ages duration t
            (if 5 < t - last - 25 then addIdle ages duration st (last + 25) t else st)
            rest = _
        rw [if_neg h,
          show idleIntervals duration last (t :: rest) =
            idleIntervals duration t rest from by
              show (if 5 < t - last - 25 then [(last + 25, t)] else []) ++ _ = _
              rw [if_neg h]; rfl]
        exact ih t st

/-- Each accumulator field of the `add_idle` fold grows by the sum of the
field's overlaps, for any field whose step adds `ovl sa ea`. -/
theorem foldl_addIdle_field (ages : AgeTimes) (duration : Int) (f : IdleAcc → Int)
    (sa ea : Int)
    (hf : ∀ (st : IdleAcc) (s e : Int),
      f (addIdle ages duration st s e) = f st + ovl sa ea s e) :
    ∀ (ivs : List (Int × Int)) (st : IdleAcc),
      f (ivs.foldl (fun acc p => addIdle ages duration acc p.1 p.2) st) =
        f st + (ivs.map (fun p => ovl sa ea p.1 p.2)).sum := by
  intro ivs
  induction ivs with
  | nil => intro st; simp
  | cons iv rest ih =>
      intro st
      rw [List.foldl_cons, List.map_cons, List.sum_cons, ih, hf]
      omega

/-- Overlap sums of a progressively ordered interval list are bounded by
the clipped length of the age span past the start bound. -/
theorem intervalChain_sum_le (duration sa ea : Int) :
    ∀ (ivs : List (Int × Int)) (lo : Int), IntervalChain duration lo ivs →
      (ivs.map (fun p => ovl sa ea p.1 p.2)).sum ≤
        max 0 (min ea duration - max sa lo) := by
  intro ivs
  induction ivs with
  | nil => intro lo _; simp
  | cons iv rest ih =>
      obtain ⟨s, e⟩ := iv
      intro lo hc
      obtain ⟨hlo, hse, hed, hrest⟩ := hc
      have hr := ih e hrest
      simp only [List.map_cons, List.sum_cons]
      unfold ovl at hr ⊢
      omega

/-- Lowering the start bound preserves progressive ordering. -/
theorem intervalChain_mono (duration : Int) :
    ∀ (ivs : List (Int × Int)) (lo lo' : Int), lo' ≤ lo →
      IntervalChain duration lo ivs → IntervalChain duration lo' ivs := by
  intro ivs
  cases ivs with
  | nil => intro _ _ _ _; trivial
  | cons iv rest =>
      obtain ⟨s, e⟩ := iv
      intro lo lo' hle hc
      obtain ⟨h1, h2⟩ := hc
      exact ⟨le_trans hle h1, h2⟩

/-- On a sorted timeline whose times do not exceed the duration, the
emitted intervals are progressively ordered past `last + 25`. -/
theorem idleIntervals_chain (duration : Int) :
    ∀ (ts : List Int) (last : Int),
      List.Chain' (· ≤ ·) (last :: ts) → (∀ t ∈ ts, t ≤ duration) →
      IntervalChain duration (last + 25) (idleIntervals duration last ts) := by
  intro ts
  induction ts with
  | nil =>
      intro last _ _
      by_cases h : last ≠ 0 ∧ last + 25 < duration
      · rw [show idleIntervals duration last [] = [(last + 25, duration)] from if_pos h]
        exact ⟨le_refl _, le_of_lt h.2, le_refl duration, trivial⟩
      · rw [show idleIntervals duration last [] = [] from if_neg h]
        trivial
  | cons t rest ih =>
      intro last hch hle
      have hlt : last ≤ t := (List.chain'_cons.mp hch).1
      have hch' : List.Chain' (· ≤ ·) (t :: rest) := (List.chain'_cons.mp hch).2
      have hle' : ∀ u ∈ rest, u ≤ duration := fun u hu =>
        hle u (List.mem_cons_of_mem t hu)
      have htd : t ≤ duration := hle t (List.mem_cons_self t rest)
      have hrest := ih t hch' hle'
      by_cases h : 5 < t - last - 25
      · rw [show idleIntervals duration last (t :: rest) =
            (last + 25, t) :: idleIntervals duration t rest from by
              show (if 5 < t - last - 25 then [(last + 25, t)] else []) ++ _ = _
              rw [if_pos h]; rfl]
        exact ⟨le_refl _, by omega, htd,
          intervalChain_mono duration _ _ _ (by omega) hrest⟩
      · rw [show idleIntervals duration last (t :: rest) =
            idleIntervals duration t rest from by
              show (if 5 < t - last - 25 then [(last + 25, t)] else []) ++ _ = _
              rw [if_neg h]; rfl]
        exact intervalChain_mono duration _ _ _ (by omega) hrest

/-- One timeline pass adds at most the clipped span to any overlap-summed
accumulator field. -/
theorem idleTimes_field_le (ages : AgeTimes) (duration : Int) (f : IdleAcc → Int)
    (sa ea : Int)
    (hf : ∀ (st : IdleAcc) (s e : Int),
      f (addIdle ages duration st s e) = f st + ovl sa ea s e)
    (ts : List Int) (st : IdleAcc)
    (hch : List.Chain' (· ≤ ·) ((0 : Int) :: ts)) (hle : ∀ t ∈ ts, t ≤ duration) :
    f (idleTimes ages duration 0 st ts) ≤
      f st + max 0 (min ea duration - max sa 0) := by
  rw [idleTimes_eq_foldl, foldl_addIdle_field ages duration f sa ea hf]
  have hchain := idleIntervals_chain duration ts 0 hch hle
  have hsum := intervalChain_sum_le duration sa ea (idleIntervals duration 0 ts)
    ((0 : Int) + 25) hchain
  omega

/-- Times extracted for one town-center id come from villager events. -/
theorem mem_timesFor {t : Int} {tid : Nat} {vev : List UnitEvent}
    (h : t ∈ timesFor tid vev) : ∃ e ∈ vev, t = (e.time : Int) := by
  unfold timesFor at h
  rw [List.mem_flatten] at h
  obtain ⟨l, hl, htl⟩ := h
  rw [List.mem_map] at hl
  obtain ⟨e, he, rfl⟩ := hl
  rw [List.mem_map] at htl
  obtain ⟨_, _, rfl⟩ := htl
  exact ⟨e, he, rfl⟩

/-- Sorting preserves the elements of a time list. -/
theorem mem_sortTimes {t : Int} {L : List Int} : t ∈ sortTimes L ↔ t ∈ L :=
  (List.perm_insertionSort _ _).mem_iff

/-- Members of the villager timeline are villager events of the input. -/
theorem mem_villagerEvents {e : UnitEvent} {unit_events : List UnitEvent}
    (h : e ∈ villagerEvents unit_events) :
    e ∈ unit_events ∧ e.line = "villager" := by
  unfold villagerEvents sortEventsByTime at h
  rw [(List.perm_insertionSort _ _).mem_iff, List.mem_filter] at h
  exact ⟨h.1, by simpa using h.2⟩

/-- A sorted integer list all of whose members are nonnegative chains
below 0. -/
theorem chain_zero_of_sorted {ts : List Int}
    (hs : List.Sorted (· ≤ ·) ts) (h0 : ∀ t ∈ ts, 0 ≤ t) :
    List.Chain' (· ≤ ·) ((0 : Int) :: ts) := by
  rw [List.chain'_iff_pairwise, List.pairwise_cons]
  exact ⟨h0, hs⟩

/-- The aggregate villager timeline is sorted. -/
theorem sorted_map_time_villagerEvents (unit_events : List UnitEvent) :
    List.Sorted (· ≤ ·)
      ((villagerEvents unit_events).map (fun e => (e.time : Int))) := by
  have hs : List.Sorted (fun a b : UnitEvent => a.time ≤ b.time)
      (villagerEvents unit_events) := List.sorted_insertionSort _ _
  exact List.Pairwise.map _ (fun a b hab => by exact_mod_cast hab) hs

/-- The aggregate branch of `_collect_tc_idle`. -/
theorem collect_tc_idle_agg (unit_events : List UnitEvent) (builds : List BuildEvent)
    (duration : Int) (ages : AgeTimes) (htc : tcIds builds = []) :
    (collect_tc_idle unit_events builds duration ages).1 =
      idleTimes ages duration 0 idleZero
        ((villagerEvents unit_events).map (fun e => (e.time : Int))) := by
  simp [collect_tc_idle, htc]

/-- The per-town-center branch of `_collect_tc_idle`. -/
theorem collect_tc_idle_perTc (unit_events : List UnitEvent) (builds : List BuildEvent)
    (duration : Int) (ages : AgeTimes) (htc : ¬ tcIds builds = []) :
    (collect_tc_idle unit_events builds duration ages).1 =
      (tcIds builds).foldl (fun st tid =>
        idleTimes ages duration 0 st
          (sortTimes (timesFor tid (villagerEvents unit_events)))) idleZero := by
  simp [collect_tc_idle, htc]

/-- Walking every town-center timeline adds at most one clipped span per
timeline to any overlap-summed accumulator field. -/
theorem foldl_tc_field_le (ages : AgeTimes) (duration : Int) (f : IdleAcc → Int)
    (sa ea : Int)
    (hf : ∀ (st : IdleAcc) (s e : Int),
      f (addIdle ages duration st s e) = f st + ovl sa ea s e)
    (vev : List UnitEvent) (hvle : ∀ e ∈ vev, (e.time : Int) ≤ duration) :
    ∀ (l : List Nat) (st : IdleAcc),
      f (l.foldl (fun st tid =>
          idleTimes ages duration 0 st (sortTimes (timesFor tid vev))) st) ≤
        f st + (l.length : Int) * max 0 (min ea duration - max sa 0) := by
  intro l
  induction l with
  | nil => intro st; simp
  | cons tid rest ih =>
      intro st
      rw [List.foldl_cons]
      have hch : List.Chain' (· ≤ ·) ((0 : Int) :: sortTimes (timesFor tid vev)) := by
        apply chain_zero_of_sorted (List.sorted_insertionSort _ _)
        intro t ht
        obtain ⟨e, _, rfl⟩ := mem_timesFor (mem_sortTimes.mp ht)
        exact Int.natCast_nonneg e.time
      have hle : ∀ t ∈ sortTimes (timesFor tid vev), t ≤ duration := by
        intro t ht
        obtain ⟨e, he, rfl⟩ := mem_timesFor (mem_sortTimes.mp ht)
        exact hvle e he
      have h1 := idleTimes_field_le ages duration f sa ea hf
        (sortTimes (timesFor tid vev)) st hch hle
      have h2 := ih (idleTimes ages duration 0 st (sortTimes (timesFor tid vev)))
      have hc : (((tid :: rest).length : Nat) : Int) *
            max 0 (min ea duration - max sa 0) =
          ((rest.length : Nat) : Int) * max 0 (min ea duration - max sa 0) +
            max 0 (min ea duration - max sa 0) := by
        rw [List.length_cons]
        push_cast
        ring
      linarith

/-- Claim C5, amended: under the hypothesis that every villager event of
the player lies within the match (time at most the duration), the idle
seconds attributed to each age bucket never exceed the number of walked
timelines (one per distinct town-center id, or one aggregate timeline)
times that bucket's wall-clock span clipped at match start and match
duration. -/
theorem c5_age_bound (unit_events : List UnitEvent) (builds : List BuildEvent)
    (duration : Int) (ages : AgeTimes)
    (h : ∀ e ∈ unit_events, e.line = "villager" → (e.time : Int) ≤ duration) :
    (collect_tc_idle unit_events builds duration ages).1.dark ≤
      timelineCount builds * ageSpanDark ages duration ∧
    (collect_tc_idle unit_events builds duration ages).1.feudal ≤
      timelineCount builds * ageSpanFeudal ages duration ∧
    (collect_tc_idle unit_events builds duration ages).1.castle ≤
      timelineCount builds * ageSpanCastle ages duration ∧
    (collect_tc_idle unit_events builds duration ages).1.imperial ≤
      timelineCount builds * ageSpanImperial ages duration := by
  have hvle : ∀ e ∈ villagerEvents unit_events, (e.time : Int) ≤ duration := by
    intro e he
    obtain ⟨h1, h2⟩ := mem_villagerEvents he
    exact h e h1 h2
  have main : ∀ (f : IdleAcc → Int) (sa ea : Int),
      (∀ (st : IdleAcc) (s e : Int),
        f (addIdle ages duration st s e) = f st + ovl sa ea s e) →
      f idleZero = 0 →
      f (collect_tc_idle unit_events builds duration ages).1 ≤
        timelineCount builds * max 0 (min ea duration - max sa 0) := by
    intro f sa ea hf hz
    by_cases htc : tcIds builds = []
    · rw [collect_tc_idle_agg unit_events builds duration ages htc,
        show timelineCount builds = 1 from if_pos htc, one_mul]
      have hch : List.Chain' (· ≤ ·)
          ((0 : Int) :: (villagerEvents unit_events).map (fun e => (e.time : Int))) := by
        apply chain_zero_of_sorted (sorted_map_time_villagerEvents unit_events)
        intro t ht
        obtain ⟨e, _, rfl⟩ := List.mem_map.mp ht
        exact Int.natCast_nonneg e.time
      have hle : ∀ t ∈ (villagerEvents unit_events).map (fun e => (e.time : Int)),
          t ≤ duration := by
        intro t ht
        obtain ⟨e, he, rfl⟩ := List.mem_map.mp ht
        exact hvle e he
      have := idleTimes_field_le ages duration f sa ea hf
        ((villagerEvents unit_events).map (fun e => (e.time : Int))) idleZero hch hle
      rw [hz] at this
      simpa using this
    · rw [collect_tc_idle_perTc unit_events builds duration ages htc,
        show timelineCount builds = ((tcIds builds).length : Int) from if_neg htc]
      have := foldl_tc_field_le ages duration f sa ea hf
        (villagerEvents unit_events) hvle (tcIds builds) idleZero
      rw [hz] at this
      simpa using this
  refine ⟨?_, ?_, ?_, ?_⟩
  · exact main IdleAcc.dark 0 (optTime ages.feudal duration) (fun _ _ _ => rfl) rfl
  · exact main IdleAcc.feudal (optTime ages.feudal 0) (optTime ages.castle duration)
      (fun _ _ _ => rfl) rfl
  · exact main IdleAcc.castle (optTime ages.castle 0) (optTime ages.imperial duration)
      (fun _ _ _ => rfl) rfl
  · exact main IdleAcc.imperial (optTime ages.imperial 0) duration
      (fun _ _ _ => rfl) rfl

/-- Claim C5 witness: the amended bound instantiated on the 900-second
scenario, whose single town-center timeline keeps every age bucket within
one clipped span. -/
theorem c5_witness :
    (collect_tc_idle scenarioEvents scenarioBuilds 900 agesNone).1.dark ≤
      timelineCount scenarioBuilds * ageSpanDark agesNone 900 ∧
    (collect_tc_idle scenarioEvents scenarioBuilds 900 agesNone).1.feudal ≤
      timelineCount scenarioBuilds * ageSpanFeudal agesNone 900 ∧
    (collect_tc_idle scenarioEvents scenarioBuilds 900 agesNone).1.castle ≤
      timelineCount scenarioBuilds * ageSpanCastle agesNone 900 ∧
    (collect_tc_idle scenarioEvents scenarioBuilds 900 agesNone).1.imperial ≤
      timelineCount scenarioBuilds * ageSpanImperial agesNone 900 :=
  c5_age_bound scenarioEvents scenarioBuilds 900 agesNone (by decide)

end KillCoach
